import Mathlib

/-!
Shallow embedding of the embedded-controller core of this repository:
the ADC sampling module (`ADC.c` / `ADC.h`) and the cooperative
time-triggered scheduler (`PIT_LED_HANDLER` and the dispatch loop in
`main`).  Machine integers are modelled as `Nat` with explicit
`% 2^w` reductions at the points where the C types can truncate.
-/

/- ================= Constants from ADC.h ================= -/

/-- C macro: `#define ADC_FULL_SCALE_COUNTS 4096U` (12-bit ADC). -/
def ADC_FULL_SCALE_COUNTS : Nat := 4096

/-- C macro: `#define TEMP_MAX_C 40U`. -/
def TEMP_MAX_C : Nat := 40

/-- C macro: `#define ADC_SAMPLE_PERIOD_MS 20U`. -/
def ADC_SAMPLE_PERIOD_MS : Nat := 20

/-- C macro: `#define ADC_AVG_WINDOW 5U`. -/
def ADC_AVG_WINDOW : Nat := 5

/-- C macro: `#define ASCII_ZERO 48`. -/
def ASCII_ZERO : Nat := 48

/-- C macro: `#define ASCII_DOT_CHAR '.'` (ASCII code 46). -/
def ASCII_DOT_CHAR : Nat := 46

/-- Modulus of the C `uint32_t` type. -/
def UINT32_MOD : Nat := 4294967296

/- ================= ADC module state ================= -/

/-- The mutable state of the ADC module: the `static` variables of `ADC.c`
together with the public `gAdcTempAscii` buffer.  `uint8_t`/`uint32_t`
contents are modelled as `Nat`; every write made by the code below keeps
them inside the corresponding machine range. -/
structure AdcState where
  s_activeChannel : Nat
  s_lastKickMs : Nat
  s_tempBuf : List Nat
  s_tempCount : Nat
  s_tempIndex : Nat
  s_lastTempC : Nat
  gAdcTempAscii : List Nat
deriving DecidableEq

/-- The state established by the static initializers of `ADC.c`
(`s_tempBuf = {0}`, `gAdcTempAscii = "00.0"`, counters zero). -/
def adcResetState : AdcState :=
  { s_activeChannel := 0
    s_lastKickMs := 0
    s_tempBuf := [0, 0, 0, 0, 0]
    s_tempCount := 0
    s_tempIndex := 0
    s_lastTempC := 0
    gAdcTempAscii := [48, 48, 46, 48] }

/-- Function `ADC_CountsToTempC` (ADC.c lines 46-50):
`t = ((uint32_t)counts * TEMP_MAX_C) / ADC_FULL_SCALE_COUNTS;
 if (t > TEMP_MAX_C) t = TEMP_MAX_C; return (uint8_t)t;`.
The parameter is `uint16_t`, hence the `% 65536` at entry.  The `uint32_t`
product is at most `65535 * 40 < 2^32`, so it never wraps and needs no
reduction; after the clamp `t ≤ 40 < 256`, so the `uint8_t` cast of the
result is exact. -/
def ADC_CountsToTempC (counts : Nat) : Nat :=
  let t := (counts % 65536) * TEMP_MAX_C / ADC_FULL_SCALE_COUNTS
  if TEMP_MAX_C < t then TEMP_MAX_C else t

/-- Function `ADC_PushTemp` (ADC.c lines 53-59): store at the write index, advance
the index mod 5, saturate the valid-count at 5.  The parameter is
`uint8_t`, hence the `% 256` on the stored value. -/
def ADC_PushTemp (temp_c : Nat) (s : AdcState) : AdcState :=
  { s with
    s_tempBuf := s.s_tempBuf.set s.s_tempIndex (temp_c % 256)
    s_tempIndex := (s.s_tempIndex + 1) % ADC_AVG_WINDOW
    s_tempCount :=
      if s.s_tempCount < ADC_AVG_WINDOW then s.s_tempCount + 1 else s.s_tempCount }

/-- Function `ADC_InitModule` (ADC.c lines 86-106), state-reset part: resets the
channel, kick time, index, count and last value.  Note that it does NOT
clear `s_tempBuf` nor `gAdcTempAscii`. -/
def ADC_InitModule (s : AdcState) : AdcState :=
  { s with
    s_activeChannel := 0
    s_lastKickMs := 0
    s_tempIndex := 0
    s_tempCount := 0
    s_lastTempC := 0 }

/-- Function `ADC_SetChannel` (ADC.c lines 108-110). -/
def ADC_SetChannel (channel : Nat) (s : AdcState) : AdcState :=
  { s with s_activeChannel := channel % UINT32_MOD }

/-- The C expression `(uint32_t)(a - b)` for `uint32_t` operands:
wraparound-safe unsigned subtraction. -/
def uint32_sub (a b : Nat) : Nat :=
  (a + UINT32_MOD - b % UINT32_MOD) % UINT32_MOD

/-- The guard of `ADC_Service` (ADC.c line 118):
`(uint32_t)(tick_ms - s_lastKickMs) >= ADC_SAMPLE_PERIOD_MS`. -/
def ADC_ServiceTriggers (tick_ms : Nat) (s : AdcState) : Bool :=
  decide (ADC_SAMPLE_PERIOD_MS ≤ uint32_sub tick_ms s.s_lastKickMs)

/-- Function `ADC_Service` (ADC.c lines 117-128).  The raw result of the blocking
hardware conversion `ADC_ConvertOnce_Polling()` is not computable from the
state; it is passed in as the oracle argument `counts`. -/
def ADC_Service (counts : Nat) (tick_ms : Nat) (s : AdcState) : AdcState :=
  if ADC_ServiceTriggers tick_ms s then
    let temp := ADC_CountsToTempC counts
    ADC_PushTemp temp
      { s with s_lastKickMs := tick_ms % UINT32_MOD, s_lastTempC := temp }
  else s

/-- Function `ADC_GetLastTempC` (ADC.c lines 130-132). -/
def ADC_GetLastTempC (s : AdcState) : Nat :=
  s.s_lastTempC

/-- The accumulation loop of `ADC_GetAvgTempC`:
`uint16_t acc = 0; for (i = 0; i < count; i++) acc += buf[i];`.
`acc` is `uint16_t`, hence the `% 65536` per step. -/
def accLoop (buf : List Nat) : Nat → Nat
  | 0 => 0
  | i + 1 => (accLoop buf i + buf.getD i 0) % 65536

/-- Function `ADC_GetAvgTempC` (ADC.c lines 134-142); the final `(uint8_t)` cast of
`acc / count` is the `% 256`. -/
def ADC_GetAvgTempC (s : AdcState) : Nat :=
  if s.s_tempCount = 0 then 0
  else (accLoop s.s_tempBuf s.s_tempCount / s.s_tempCount) % 256

/-- Function `ADC_FormatTempToAscii` (ADC.c lines 145-153): writes the four cells of
`gAdcTempAscii`.  The parameter is `uint8_t` (`% 256` at entry); each
stored cell is at most `48 + 25 < 256`, so the `uint8_t` casts are exact. -/
def ADC_FormatTempToAscii (temp_c : Nat) (s : AdcState) : AdcState :=
  let t := temp_c % 256
  let tens := t / 10
  let units := t % 10
  { s with
    gAdcTempAscii :=
      [ASCII_ZERO + tens, ASCII_ZERO + units, ASCII_DOT_CHAR, ASCII_ZERO + 0] }

/-- Function `ADC_FormatAvgTempToAscii` (ADC.c lines 155-157). -/
def ADC_FormatAvgTempToAscii (s : AdcState) : AdcState :=
  ADC_FormatTempToAscii (ADC_GetAvgTempC s) s

/-- A sequence of `ADC_PushTemp` calls, oldest first. -/
def pushTemps (L : List Nat) (s : AdcState) : AdcState :=
  L.foldl (fun s v => ADC_PushTemp v s) s

/-- Run `ADC_Service` over a list of `(tick_ms, counts)` call arguments. -/
def serviceRun : List (Nat × Nat) → AdcState → AdcState
  | [], s => s
  | (t, c) :: rest, s => serviceRun rest (ADC_Service c t s)

/-- Number of hardware conversions performed by running `ADC_Service`
over a list of `(tick_ms, counts)` call arguments. -/
def serviceConvCount : List (Nat × Nat) → AdcState → Nat
  | [], _ => 0
  | (t, c) :: rest, s =>
      (if ADC_ServiceTriggers t s then 1 else 0) +
        serviceConvCount rest (ADC_Service c t s)

/-- The call pattern of claim C2: `n` consecutive `ADC_Service` calls whose
tick argument starts at `t0` and increments by 1 each call, with an
arbitrary oracle `f` for the converted raw counts. -/
def svcWindow (t0 n : Nat) (f : Nat → Nat) : List (Nat × Nat) :=
  (List.range n).map (fun k => (t0 + k, f k))

/-- The conversion mapping written exactly as §4.2 of the spec words it:
`physical = clamp(floor(rawCode * MAX / FULL_SCALE), 0, MAX)`. -/
def specClampMapping (rawCode : Nat) : Nat :=
  min (max (rawCode * TEMP_MAX_C / ADC_FULL_SCALE_COUNTS) 0) TEMP_MAX_C

/- ================= Scheduler (second source file) ================= -/

/-- The three-valued task state used by `ThreadTable` and the
scheduler code (`STANDBY` / `READY` / `EXECUTE`). -/
inductive ThdState where
  | STANDBY
  | READY
  | EXECUTE
deriving DecidableEq

/-- One task descriptor (`ThdObj`): the handler is identified by a tag
(the handlers `Thd_2ms` / `Thd_5ms` / `Thd_10ms` only bump private
counters, so their identity is all that matters for scheduling). -/
structure ThdObj where
  ThreadHandler : Nat
  ThreadState : ThdState
  ThreadRate : Nat
  SystemTime : Nat
deriving DecidableEq

/-- Handler tag for `Thd_2ms`. -/
def Thd_2ms : Nat := 0

/-- Handler tag for `Thd_5ms`. -/
def Thd_5ms : Nat := 1

/-- Handler tag for `Thd_10ms`. -/
def Thd_10ms : Nat := 2

/-- The static `ThreadTable` initializer. -/
def ThreadTable : List ThdObj :=
  [⟨Thd_2ms, .STANDBY, 2, 0⟩, ⟨Thd_5ms, .STANDBY, 5, 0⟩, ⟨Thd_10ms, .STANDBY, 10, 0⟩]

/-- Per-descriptor body of the tick-interrupt loop
(`PIT_LED_HANDLER`, lines 221-227):
`SystemTime++; if (SystemTime >= ThreadRate) { ThreadState = READY; SystemTime = 0; }`. -/
def tickStep (t : ThdObj) : ThdObj :=
  let st := t.SystemTime + 1
  if t.ThreadRate ≤ st then { t with ThreadState := .READY, SystemTime := 0 }
  else { t with SystemTime := st }

/-- Function `PIT_LED_HANDLER`: updates every descriptor of the table in order.
The updates of distinct entries are independent, so the in-order loop is
a `map`. -/
def PIT_LED_HANDLER (table : List ThdObj) : List ThdObj :=
  table.map tickStep

/-- Observable events of one pass of the dispatch loop. -/
inductive SchedEv where
  | enterExecute (h : Nat)
  | runHandler (h : Nat)
  | enterStandby (h : Nat)
  | idleHook
deriving DecidableEq

/-- Body of the dispatch loop in `main` (lines 273-282) for one descriptor:
if READY, set state to EXECUTE (event `enterExecute`), run the handler to
completion (event `runHandler`; the handlers do not touch the table), set
state to STANDBY (event `enterStandby`); otherwise call `Thd_idle()`
(event `idleHook`).  The returned descriptor is the net state after the
body. -/
def dispatchEntry (t : ThdObj) : ThdObj × List SchedEv :=
  if t.ThreadState = .READY then
    ({ t with ThreadState := .STANDBY },
      [.enterExecute t.ThreadHandler, .runHandler t.ThreadHandler,
        .enterStandby t.ThreadHandler])
  else (t, [.idleHook])

/-- One scheduling round: one full pass of the dispatch loop over the
table, in table order, collecting the events. -/
def dispatchRound : List ThdObj → List ThdObj × List SchedEv
  | [] => ([], [])
  | t :: rest =>
      let p := dispatchEntry t
      let q := dispatchRound rest
      (p.1 :: q.1, p.2 ++ q.2)

/-- Handler tags of the handlers actually executed, in execution order. -/
def execOrder (evs : List SchedEv) : List Nat :=
  evs.filterMap (fun e =>
    match e with
    | .runHandler h => some h
    | _ => none)

/-- Ring-buffer characterization after pushing the sequence `L` into a
buffer that started with valid-count 0 and write index 0: the five slots,
the count, the index, and the content of the `min |L| 5` most recently
written slots (slot `(index + 4 - k) % 5` holds the `k`-th most recent
push). -/
def BufInv (L : List Nat) (s : AdcState) : Prop :=
  s.s_tempBuf.length = 5 ∧
  s.s_tempCount = min L.length 5 ∧
  s.s_tempIndex = L.length % 5 ∧
  ∀ k, k < min L.length 5 →
    s.s_tempBuf.getD ((L.length % 5 + 4 - k) % 5) 0 = L.reverse.getD k 0 % 256

/- ================= Helper lemmas ================= -/

lemma ADC_Service_not_triggered (counts tick_ms : Nat) (s : AdcState)
    (h : ADC_ServiceTriggers tick_ms s = false) : ADC_Service counts tick_ms s = s := by
  simp [ADC_Service, h]

lemma ADC_Service_lastKick_triggered (counts tick_ms : Nat) (s : AdcState)
    (h : ADC_ServiceTriggers tick_ms s = true) :
    (ADC_Service counts tick_ms s).s_lastKickMs = tick_ms % UINT32_MOD := by
  simp [ADC_Service, h, ADC_PushTemp]

lemma uint32_sub_zero (t : Nat) : uint32_sub t 0 = t % UINT32_MOD := by
  simp only [uint32_sub, UINT32_MOD]
  omega

lemma uint32_sub_add_self (t k : Nat) (hk : k < UINT32_MOD) :
    uint32_sub (t + k) (t % UINT32_MOD) = k := by
  simp only [uint32_sub, UINT32_MOD] at *
  omega

lemma triggers_false_of_lt (tick_ms : Nat) (s : AdcState)
    (h : uint32_sub tick_ms s.s_lastKickMs < ADC_SAMPLE_PERIOD_MS) :
    ADC_ServiceTriggers tick_ms s = false := by
  simp only [ADC_ServiceTriggers, decide_eq_false_iff_not, not_le]
  exact h

lemma triggers_add_small (t k : Nat) (s : AdcState)
    (hs : s.s_lastKickMs = t % UINT32_MOD) (hk : k < 20) :
    ADC_ServiceTriggers (t + k) s = false := by
  apply triggers_false_of_lt
  rw [hs, uint32_sub_add_self t k (by simp only [UINT32_MOD]; omega)]
  simp only [ADC_SAMPLE_PERIOD_MS]
  omega

lemma svcWindow_succ (t0 n : Nat) (f : Nat → Nat) :
    svcWindow t0 (n + 1) f = (t0, f 0) :: svcWindow (t0 + 1) n (fun k => f (k + 1)) := by
  simp only [svcWindow]
  rw [List.range_succ_eq_map, List.map_cons, List.map_map]
  congr 1
  apply List.map_congr_left
  intro a _
  show (t0 + (a + 1), f (a + 1)) = (t0 + 1 + a, f (a + 1))
  rw [Prod.mk.injEq]
  exact ⟨by omega, rfl⟩

lemma serviceConvCount_cons (t c : Nat) (rest : List (Nat × Nat)) (s : AdcState) :
    serviceConvCount ((t, c) :: rest) s =
      (if ADC_ServiceTriggers t s then 1 else 0) +
        serviceConvCount rest (ADC_Service c t s) := rfl

/-- Once a conversion has just been kicked at tick `t`, a run of calls at
ticks `t + j, t + j + 1, ...` that stays within the sampling period
(`j + n ≤ 20`) performs no conversion at all. -/
lemma convCount_zero_after_kick :
    ∀ (n j t : Nat) (f : Nat → Nat) (s : AdcState),
      s.s_lastKickMs = t % UINT32_MOD → 1 ≤ j → j + n ≤ 20 →
      serviceConvCount (svcWindow (t + j) n f) s = 0 := by
  intro n
  induction n with
  | zero =>
    intro j t f s _ _ _
    simp [svcWindow, serviceConvCount]
  | succ n ih =>
    intro j t f s hs hj hjn
    rw [svcWindow_succ, serviceConvCount_cons]
    have htr : ADC_ServiceTriggers (t + j) s = false := triggers_add_small t j s hs (by omega)
    rw [htr, ADC_Service_not_triggered _ _ _ htr]
    have harg : t + j + 1 = t + (j + 1) := by omega
    rw [harg]
    rw [ih (j + 1) t _ s hs (by omega) (by omega)]
    simp

/-- Any 20 consecutive unit-increment `ADC_Service` calls perform at most
one conversion, from any starting state. -/
lemma convCount_window_le_one :
    ∀ (n : Nat), n ≤ 20 → ∀ (t0 : Nat) (f : Nat → Nat) (s : AdcState),
      serviceConvCount (svcWindow t0 n f) s ≤ 1 := by
  intro n
  induction n with
  | zero =>
    intro _ t0 f s
    simp [svcWindow, serviceConvCount]
  | succ n ih =>
    intro hn t0 f s
    rw [svcWindow_succ, serviceConvCount_cons]
    cases htr : ADC_ServiceTriggers t0 s with
    | false =>
      rw [ADC_Service_not_triggered _ _ _ htr]
      simpa using ih (by omega) (t0 + 1) _ s
    | true =>
      have hlk : (ADC_Service (f 0) t0 s).s_lastKickMs = t0 % UINT32_MOD :=
        ADC_Service_lastKick_triggered _ _ _ htr
      have h0 := convCount_zero_after_kick n 1 t0 (fun k => f (k + 1))
        (ADC_Service (f 0) t0 s) hlk (by omega) (by omega)
      simp [h0]

/-- From a state whose kick time is 0, a window of `n ≤ 20` unit-increment
calls starting at a tick `t0` with `1 ≤ t0 % 2^32` that reaches the
sampling period performs exactly one conversion. -/
lemma convCount_window_eq_one :
    ∀ (n : Nat), ∀ (t0 : Nat) (f : Nat → Nat) (s : AdcState),
      s.s_lastKickMs = 0 → 1 ≤ t0 % UINT32_MOD → n ≤ 20 →
      20 ≤ t0 % UINT32_MOD + n - 1 → 1 ≤ n →
      serviceConvCount (svcWindow t0 n f) s = 1 := by
  intro n
  induction n with
  | zero =>
    intro t0 f s _ _ _ _ h
    omega
  | succ n ih =>
    intro t0 f s hs h1 hn hreach _
    rw [svcWindow_succ, serviceConvCount_cons]
    by_cases hr : 20 ≤ t0 % UINT32_MOD
    · have htr : ADC_ServiceTriggers t0 s = true := by
        simp only [ADC_ServiceTriggers, hs, uint32_sub_zero, ADC_SAMPLE_PERIOD_MS,
          decide_eq_true_eq]
        exact hr
      have hlk : (ADC_Service (f 0) t0 s).s_lastKickMs = t0 % UINT32_MOD :=
        ADC_Service_lastKick_triggered _ _ _ htr
      have h0 := convCount_zero_after_kick n 1 t0 (fun k => f (k + 1))
        (ADC_Service (f 0) t0 s) hlk (by omega) (by omega)
      simp [htr, h0]
    · have htr : ADC_ServiceTriggers t0 s = false := by
        apply triggers_false_of_lt
        rw [hs, uint32_sub_zero]
        simp only [ADC_SAMPLE_PERIOD_MS]
        omega
      rw [htr, ADC_Service_not_triggered _ _ _ htr]
      have hmod : (t0 + 1) % UINT32_MOD = t0 % UINT32_MOD + 1 := by
        simp only [UINT32_MOD] at *
        omega
      simpa using ih (t0 + 1) _ s hs (by omega) (by omega) (by omega) (by omega)

/- ================= Claim theorems ================= -/

/-- C1 (counterexample): the claim says mapping the maximum raw code
`4095` yields the maximum physical value `40`; the code yields `39`. -/
theorem C1_max_raw_code_counterexample :
    ADC_CountsToTempC (ADC_FULL_SCALE_COUNTS - 1) = 39 ∧ (39 : Nat) ≠ TEMP_MAX_C := by
  decide

/-- C1 (amended): mapping the maximum raw code `4095` yields `39`, one
less than the maximum physical value (integer truncation of
`4095 * 40 / 4096`); mapping half of full scale (`2048`) yields half of
the maximum physical value (`20`). -/
theorem C1_raw_code_extremes_amended :
    ADC_CountsToTempC (ADC_FULL_SCALE_COUNTS - 1) = TEMP_MAX_C - 1 ∧
    ADC_CountsToTempC (ADC_FULL_SCALE_COUNTS / 2) = TEMP_MAX_C / 2 := by
  decide

/-- C2: any 20 consecutive unit-increment `ADC_Service` calls perform at
most one hardware conversion, from any state; and starting from the
initialized module state, 20 such calls whose first tick is nonzero
(mod 2^32) perform exactly one conversion, regardless of the raw values
the hardware returns. -/
theorem C2_one_conversion_per_period :
    (∀ (s : AdcState) (t0 : Nat) (f : Nat → Nat),
        serviceConvCount (svcWindow t0 20 f) s ≤ 1) ∧
    (∀ (s : AdcState) (t0 : Nat) (f : Nat → Nat), 1 ≤ t0 % UINT32_MOD →
        serviceConvCount (svcWindow t0 20 f) (ADC_InitModule s) = 1) := by
  constructor
  · intro s t0 f
    exact convCount_window_le_one 20 (by omega) t0 f s
  · intro s t0 f h
    exact convCount_window_eq_one 20 t0 f (ADC_InitModule s) (by simp [ADC_InitModule])
      h (by omega) (by omega) (by omega)

/-- C2 witness: ticks 1..20 from the reset state give exactly one
conversion. -/
theorem C2_one_conversion_per_period_witness :
    1 ≤ 1 % UINT32_MOD ∧
      serviceConvCount (svcWindow 1 20 (fun _ => 0)) (ADC_InitModule adcResetState) = 1 :=
  ⟨by decide, C2_one_conversion_per_period.2 adcResetState 1 (fun _ => 0) (by decide)⟩

/-- C4: after any execution of the tick interrupt handler, every
descriptor's elapsed counter is strictly below its period (given positive
periods, as in `ThreadTable`); the handler updates each descriptor by
incrementing `SystemTime`, and exactly when the incremented value reaches
or exceeds `ThreadRate` it sets the state to `READY` and resets
`SystemTime` to 0. -/
theorem C4_elapsed_lt_period_invariant :
    ∀ table : List ThdObj, (∀ t ∈ table, 1 ≤ t.ThreadRate) →
      PIT_LED_HANDLER table = table.map tickStep ∧
      (∀ u ∈ PIT_LED_HANDLER table, u.SystemTime < u.ThreadRate) ∧
      (∀ t ∈ table,
        (t.ThreadRate ≤ t.SystemTime + 1 →
          tickStep t = { t with ThreadState := .READY, SystemTime := 0 }) ∧
        (t.SystemTime + 1 < t.ThreadRate →
          tickStep t = { t with SystemTime := t.SystemTime + 1 })) := by
  intro table h
  refine ⟨rfl, ?_, ?_⟩
  · intro u hu
    simp only [PIT_LED_HANDLER, List.mem_map] at hu
    obtain ⟨t, ht, rfl⟩ := hu
    have h1 := h t ht
    simp only [tickStep]
    split
    · simpa using h1
    · next h2 => simp only []; omega
  · intro t ht
    constructor
    · intro hge
      simp only [tickStep]
      rw [if_pos hge]
    · intro hlt
      simp only [tickStep]
      rw [if_neg (by omega)]

/-- C4 witness: the concrete `ThreadTable` satisfies the hypothesis and
the invariant after one handler run. -/
theorem C4_elapsed_lt_period_invariant_witness :
    (∀ t ∈ ThreadTable, 1 ≤ t.ThreadRate) ∧
      (∀ u ∈ PIT_LED_HANDLER ThreadTable, u.SystemTime < u.ThreadRate) :=
  ⟨by decide, (C4_elapsed_lt_period_invariant ThreadTable (by decide)).2.1⟩

lemma dispatchEntry_fst (t : ThdObj) :
    (dispatchEntry t).1 =
      if t.ThreadState = .READY then { t with ThreadState := .STANDBY } else t := by
  simp only [dispatchEntry]
  split
  · rfl
  · rfl

lemma dispatchRound_fst (table : List ThdObj) :
    (dispatchRound table).1 =
      table.map (fun t =>
        if t.ThreadState = .READY then { t with ThreadState := .STANDBY } else t) := by
  induction table with
  | nil => rfl
  | cons t rest ih =>
    simp only [dispatchRound, List.map_cons]
    rw [← ih, ← dispatchEntry_fst]

lemma execOrder_append (a b : List SchedEv) :
    execOrder (a ++ b) = execOrder a ++ execOrder b := by
  simp [execOrder, List.filterMap_append]

lemma dispatchRound_events (table : List ThdObj) :
    execOrder (dispatchRound table).2 =
      (table.filter (fun t => decide (t.ThreadState = .READY))).map ThdObj.ThreadHandler := by
  induction table with
  | nil => rfl
  | cons t rest ih =>
    show execOrder ((dispatchEntry t).2 ++ (dispatchRound rest).2) = _
    rw [execOrder_append, ih]
    by_cases h : t.ThreadState = .READY
    · simp [dispatchEntry, h, execOrder, List.filter_cons]
    · simp [dispatchEntry, h, execOrder, List.filter_cons]

/-- C5: in every scheduling round the dispatcher visits the descriptors in
table order, leaves every READY descriptor in STANDBY after running its
handler (via EXECUTE) and idles on the rest, so the executed handlers are
exactly the READY entries' handlers in table-declaration order; in the
concrete scenario where tasks A(period 2), B(period 5), C(period 10) are
all READY after the 10th tick, one round executes A, B, C in that order. -/
theorem C5_dispatch_table_order :
    (∀ table : List ThdObj,
        (dispatchRound table).1 =
          table.map (fun t =>
            if t.ThreadState = .READY then { t with ThreadState := .STANDBY } else t)) ∧
    (∀ table : List ThdObj,
        execOrder (dispatchRound table).2 =
          (table.filter (fun t => decide (t.ThreadState = .READY))).map
            ThdObj.ThreadHandler) ∧
    (∀ u ∈ PIT_LED_HANDLER^[10] ThreadTable, u.ThreadState = .READY) ∧
    execOrder (dispatchRound (PIT_LED_HANDLER^[10] ThreadTable)).2 =
      [Thd_2ms, Thd_5ms, Thd_10ms] :=
  ⟨dispatchRound_fst, dispatchRound_events, by decide, by decide⟩

/-- C5 witness: the first descriptor after 10 ticks is READY. -/
theorem C5_dispatch_table_order_witness :
    (⟨Thd_2ms, ThdState.READY, 2, 0⟩ : ThdObj) ∈ PIT_LED_HANDLER^[10] ThreadTable ∧
      (⟨Thd_2ms, ThdState.READY, 2, 0⟩ : ThdObj).ThreadState = ThdState.READY :=
  ⟨by decide, C5_dispatch_table_order.2.2.1 _ (by decide)⟩

/-- C6: on the full 16-bit input range the raw-code-to-physical mapping
equals `clamp(floor(rawCode * 40 / 4096), 0, 40)` as the spec words it,
and it is monotonic non-decreasing. -/
theorem C6_mapping_clamp_monotone :
    (∀ rawCode : Nat, rawCode < 65536 →
        ADC_CountsToTempC rawCode = specClampMapping rawCode) ∧
    (∀ a b : Nat, a ≤ b → b < 65536 → ADC_CountsToTempC a ≤ ADC_CountsToTempC b) := by
  constructor
  · intro raw h
    simp only [ADC_CountsToTempC, specClampMapping, TEMP_MAX_C, ADC_FULL_SCALE_COUNTS,
      Nat.mod_eq_of_lt h]
    rw [Nat.max_eq_left (Nat.zero_le _), Nat.min_def]
    split
    · rw [if_neg (by omega)]
    · rw [if_pos (by omega)]
  · intro a b hab hb
    have ha : a % 65536 = a := Nat.mod_eq_of_lt (by omega)
    have hbm : b % 65536 = b := Nat.mod_eq_of_lt hb
    simp only [ADC_CountsToTempC, TEMP_MAX_C, ADC_FULL_SCALE_COUNTS, ha, hbm]
    have hd : a * 40 / 4096 ≤ b * 40 / 4096 :=
      Nat.div_le_div_right (Nat.mul_le_mul_right 40 hab)
    split
    · split
      · omega
      · omega
    · split
      · omega
      · omega

/-- C6 witness: the mapping agrees with the spec clamp at 4095 and is
monotone from 2048 to 4095. -/
theorem C6_mapping_clamp_monotone_witness :
    (4095 : Nat) < 65536 ∧ ADC_CountsToTempC 4095 = specClampMapping 4095 ∧
      ADC_CountsToTempC 2048 ≤ ADC_CountsToTempC 4095 :=
  ⟨by decide, C6_mapping_clamp_monotone.1 4095 (by decide),
    C6_mapping_clamp_monotone.2 2048 4095 (by decide) (by decide)⟩

/-- C7: `ADC_Service` computes the elapsed time with wraparound-safe
unsigned 32-bit subtraction: for every pair of stored kick time and
current tick (as 32-bit values), the computed elapsed time equals the
mathematical `(currentTick - lastKickTime) mod 2^32`, and a conversion is
triggered exactly when that quantity is at least the sampling period. -/
theorem C7_wraparound_elapsed :
    ∀ (s : AdcState) (tick_ms : Nat), s.s_lastKickMs < UINT32_MOD → tick_ms < UINT32_MOD →
      ((uint32_sub tick_ms s.s_lastKickMs : Int) =
          ((tick_ms : Int) - (s.s_lastKickMs : Int)) % (UINT32_MOD : Int)) ∧
      (ADC_ServiceTriggers tick_ms s = true ↔
          (ADC_SAMPLE_PERIOD_MS : Int) ≤
            ((tick_ms : Int) - (s.s_lastKickMs : Int)) % (UINT32_MOD : Int)) := by
  intro s t h1 h2
  simp only [uint32_sub, UINT32_MOD, ADC_ServiceTriggers, ADC_SAMPLE_PERIOD_MS,
    decide_eq_true_eq] at *
  constructor
  · omega
  · omega

/-- C7 witness: a pair straddling the 32-bit rollover: kick time
`2^32 - 10`, current tick `15`, elapsed `25 ≥ 20`. -/
theorem C7_wraparound_elapsed_witness :
    ({ adcResetState with s_lastKickMs := 4294967286 } : AdcState).s_lastKickMs <
        UINT32_MOD ∧
      (15 : Nat) < UINT32_MOD ∧
      (ADC_ServiceTriggers 15 { adcResetState with s_lastKickMs := 4294967286 } = true ↔
        (ADC_SAMPLE_PERIOD_MS : Int) ≤
          ((15 : Int) -
              (({ adcResetState with s_lastKickMs := 4294967286 } : AdcState).s_lastKickMs :
                Int)) %
            (UINT32_MOD : Int)) :=
  ⟨by decide, by decide,
    (C7_wraparound_elapsed { adcResetState with s_lastKickMs := 4294967286 } 15
        (by decide) (by decide)).2⟩

/-- C8: for every value in 0..99, `ADC_FormatTempToAscii` writes exactly 4
characters into `gAdcTempAscii`: the ASCII tens digit, the ASCII units
digit, a literal dot, and the constant digit `'0'`; in particular 23, 0
and 40 format to "23.0", "00.0" and "40.0" (codes 50 51 46 48 etc.). -/
theorem C8_format_fixed_point :
    (∀ (temp_c : Nat) (s : AdcState), temp_c ≤ 99 →
        (ADC_FormatTempToAscii temp_c s).gAdcTempAscii =
          [ASCII_ZERO + temp_c / 10, ASCII_ZERO + temp_c % 10, ASCII_DOT_CHAR, ASCII_ZERO] ∧
        (ADC_FormatTempToAscii temp_c s).gAdcTempAscii.length = 4) ∧
    (∀ s : AdcState, (ADC_FormatTempToAscii 23 s).gAdcTempAscii = [50, 51, 46, 48]) ∧
    (∀ s : AdcState, (ADC_FormatTempToAscii 0 s).gAdcTempAscii = [48, 48, 46, 48]) ∧
    (∀ s : AdcState, (ADC_FormatTempToAscii 40 s).gAdcTempAscii = [52, 48, 46, 48]) := by
  refine ⟨?_, fun s => rfl, fun s => rfl, fun s => rfl⟩
  intro temp_c s h
  have hm : temp_c % 256 = temp_c := Nat.mod_eq_of_lt (by omega)
  constructor
  · simp [ADC_FormatTempToAscii, hm]
  · simp [ADC_FormatTempToAscii]

/-- C8 witness: formatting 23 from the reset state. -/
theorem C8_format_fixed_point_witness :
    (23 : Nat) ≤ 99 ∧
      (ADC_FormatTempToAscii 23 adcResetState).gAdcTempAscii =
        [ASCII_ZERO + 23 / 10, ASCII_ZERO + 23 % 10, ASCII_DOT_CHAR, ASCII_ZERO] :=
  ⟨by decide, (C8_format_fixed_point.1 23 adcResetState (by decide)).1⟩

/-- C9: if the wraparound-computed elapsed time is strictly below the
sampling period, `ADC_Service` performs no conversion and is a no-op: the
kick time, last value, rolling buffer, valid-count, write index and the
ASCII output buffer are all unchanged. -/
theorem C9_service_noop_frame :
    ∀ (counts tick_ms : Nat) (s : AdcState),
      uint32_sub tick_ms s.s_lastKickMs < ADC_SAMPLE_PERIOD_MS →
      ADC_ServiceTriggers tick_ms s = false ∧
      ADC_Service counts tick_ms s = s ∧
      (ADC_Service counts tick_ms s).s_lastKickMs = s.s_lastKickMs ∧
      (ADC_Service counts tick_ms s).s_lastTempC = s.s_lastTempC ∧
      (ADC_Service counts tick_ms s).s_tempBuf = s.s_tempBuf ∧
      (ADC_Service counts tick_ms s).s_tempCount = s.s_tempCount ∧
      (ADC_Service counts tick_ms s).s_tempIndex = s.s_tempIndex ∧
      (ADC_Service counts tick_ms s).gAdcTempAscii = s.gAdcTempAscii := by
  intro c t s h
  have htr : ADC_ServiceTriggers t s = false := triggers_false_of_lt t s h
  have heq := ADC_Service_not_triggered c t s htr
  exact ⟨htr, heq, by rw [heq], by rw [heq], by rw [heq], by rw [heq], by rw [heq],
    by rw [heq]⟩

/-- C9 witness: a call at tick 5 from the reset state (elapsed 5 < 20)
changes nothing. -/
theorem C9_service_noop_frame_witness :
    uint32_sub 5 adcResetState.s_lastKickMs < ADC_SAMPLE_PERIOD_MS ∧
      ADC_Service 3000 5 adcResetState = adcResetState :=
  ⟨by decide, (C9_service_noop_frame 3000 5 adcResetState (by decide)).2.1⟩

/- ================= Ring-buffer lemmas (C3, C10) ================= -/

lemma getD_set_self (l : List Nat) (i x : Nat) (h : i < l.length) :
    (l.set i x).getD i 0 = x := by
  rw [List.getD_eq_getElem _ _ (by simpa using h)]
  exact List.getElem_set_self (by simpa using h)

lemma getD_set_ne (l : List Nat) (i j x : Nat) (hij : i ≠ j) (h : j < l.length) :
    (l.set i x).getD j 0 = l.getD j 0 := by
  rw [List.getD_eq_getElem _ _ (by simpa using h), List.getD_eq_getElem _ _ h]
  exact List.getElem_set_ne hij (by simpa using h)

lemma getD_reverse (l : List Nat) (k : Nat) (h : k < l.length) :
    l.reverse.getD k 0 = l.getD (l.length - 1 - k) 0 := by
  rw [List.getD_eq_getElem _ _ (by simpa using h), List.getD_eq_getElem _ _ (by omega)]
  rw [List.getElem_reverse]

lemma getD_append_left (l l' : List Nat) (k : Nat) (h : k < l.length) :
    (l ++ l').getD k 0 = l.getD k 0 := by
  rw [List.getD_eq_getElem _ _ (by simp only [List.length_append]; omega),
    List.getD_eq_getElem _ _ h]
  exact List.getElem_append_left h

lemma exists_five_of_length (l : List Nat) (h : l.length = 5) :
    ∃ a b c d e, l = [a, b, c, d, e] := by
  rcases l with _ | ⟨a, l⟩
  · simp at h
  rcases l with _ | ⟨b, l⟩
  · simp at h
  rcases l with _ | ⟨c, l⟩
  · simp at h
  rcases l with _ | ⟨d, l⟩
  · simp at h
  rcases l with _ | ⟨e, l⟩
  · simp at h
  rcases l with _ | ⟨f, l⟩
  · exact ⟨a, b, c, d, e, rfl⟩
  · simp at h

lemma bufInv_nil (s : AdcState) (h5 : s.s_tempBuf.length = 5) :
    BufInv [] (ADC_InitModule s) := by
  refine ⟨by simpa [ADC_InitModule] using h5, by simp [ADC_InitModule],
    by simp [ADC_InitModule], ?_⟩
  intro k hk
  simp at hk

lemma bufInv_push (L : List Nat) (v : Nat) (s : AdcState) (h : BufInv L s) :
    BufInv (L ++ [v]) (ADC_PushTemp v s) := by
  obtain ⟨hlen, hcount, hidx, hcont⟩ := h
  have hidx5 : s.s_tempIndex < 5 := by rw [hidx]; omega
  refine ⟨?_, ?_, ?_, ?_⟩
  · simp [ADC_PushTemp, hlen]
  · simp only [ADC_PushTemp, ADC_AVG_WINDOW, List.length_append, List.length_cons,
      List.length_nil]
    split <;> omega
  · simp only [ADC_PushTemp, ADC_AVG_WINDOW, List.length_append, List.length_cons,
      List.length_nil, hidx]
    omega
  · intro k hk
    simp only [List.length_append, List.length_cons, List.length_nil] at hk ⊢
    simp only [ADC_PushTemp, ADC_AVG_WINDOW]
    cases k with
    | zero =>
      have hslot : ((L.length + 1) % 5 + 4 - 0) % 5 = s.s_tempIndex := by rw [hidx]; omega
      rw [hslot, getD_set_self _ _ _ (by omega)]
      simp [List.reverse_append]
    | succ k =>
      have hk4 : k ≤ 3 := by omega
      have hkm : k < min L.length 5 := by omega
      have hslot : ((L.length + 1) % 5 + 4 - (k + 1)) % 5 = (L.length % 5 + 4 - k) % 5 := by
        omega
      rw [hslot]
      have hne : s.s_tempIndex ≠ (L.length % 5 + 4 - k) % 5 := by rw [hidx]; omega
      rw [getD_set_ne _ _ _ _ hne (by omega), hcont k hkm]
      simp [List.reverse_append]

lemma bufInv_pushTemps (s : AdcState) (h5 : s.s_tempBuf.length = 5) (L : List Nat) :
    BufInv L (pushTemps L (ADC_InitModule s)) := by
  induction L using List.reverseRecOn with
  | nil => exact bufInv_nil s h5
  | append_singleton L v ih =>
    have hstep : pushTemps (L ++ [v]) (ADC_InitModule s) =
        ADC_PushTemp v (pushTemps L (ADC_InitModule s)) := by
      simp [pushTemps, List.foldl_append]
    rw [hstep]
    exact bufInv_push L v _ ih

/-- C10: after initialization and after every sequence of pushes, the
valid-count is at most 5, the write index is below 5, while the count is
below 5 the write index equals the count, and in that regime the first
`count` slots hold exactly the values pushed so far (as `uint8_t`). -/
theorem C10_buffer_index_invariant :
    ∀ (s : AdcState) (L : List Nat), s.s_tempBuf.length = 5 →
      (pushTemps L (ADC_InitModule s)).s_tempCount ≤ 5 ∧
      (pushTemps L (ADC_InitModule s)).s_tempIndex < 5 ∧
      ((pushTemps L (ADC_InitModule s)).s_tempCount < 5 →
        (pushTemps L (ADC_InitModule s)).s_tempIndex =
          (pushTemps L (ADC_InitModule s)).s_tempCount) ∧
      ((pushTemps L (ADC_InitModule s)).s_tempCount < 5 →
        ∀ i, i < L.length →
          (pushTemps L (ADC_InitModule s)).s_tempBuf.getD i 0 = L.getD i 0 % 256) := by
  intro s L h5
  obtain ⟨hlen, hcount, hidx, hcont⟩ := bufInv_pushTemps s h5 L
  refine ⟨by omega, by omega, by omega, ?_⟩
  intro hc i hi
  have hn : L.length < 5 := by omega
  have hk : L.length - 1 - i < min L.length 5 := by omega
  have hval := hcont (L.length - 1 - i) hk
  have hslot : (L.length % 5 + 4 - (L.length - 1 - i)) % 5 = i := by omega
  rw [hslot] at hval
  rw [hval, getD_reverse _ _ (by omega)]
  have hback : L.length - 1 - (L.length - 1 - i) = i := by omega
  rw [hback]

/-- C10 witness: pushing two values from the reset state. -/
theorem C10_buffer_index_invariant_witness :
    adcResetState.s_tempBuf.length = 5 ∧
      (pushTemps [7, 9] (ADC_InitModule adcResetState)).s_tempCount ≤ 5 ∧
      (pushTemps [7, 9] (ADC_InitModule adcResetState)).s_tempIndex =
        (pushTemps [7, 9] (ADC_InitModule adcResetState)).s_tempCount :=
  ⟨by decide, (C10_buffer_index_invariant adcResetState [7, 9] (by decide)).1,
    (C10_buffer_index_invariant adcResetState [7, 9] (by decide)).2.2.1 (by decide)⟩

set_option maxHeartbeats 800000 in
/-- C3: from a freshly initialized module, `ADC_GetAvgTempC` returns 0
when nothing has been pushed; after fewer than 5 pushes it returns the
integer-truncated mean of exactly the values pushed so far (divisor =
count pushed); after 5 or more pushes it returns the floor of the mean of
exactly the last 5 pushed values. -/
theorem C3_rolling_average :
    ∀ (s : AdcState) (L : List Nat), s.s_tempBuf.length = 5 → (∀ v ∈ L, v < 256) →
      (L = [] → ADC_GetAvgTempC (pushTemps L (ADC_InitModule s)) = 0) ∧
      (L ≠ [] → L.length < 5 →
        ADC_GetAvgTempC (pushTemps L (ADC_InitModule s)) = L.sum / L.length) ∧
      (5 ≤ L.length →
        ADC_GetAvgTempC (pushTemps L (ADC_InitModule s)) =
          (L.drop (L.length - 5)).sum / 5) := by
  intro s L h5 hv
  obtain ⟨ch, kick, buf, cnt, idx, lastv, ascii⟩ := s
  obtain ⟨p1, p2, p3, p4, p5, rfl⟩ := exists_five_of_length buf h5
  refine ⟨?_, ?_, ?_⟩
  · rintro rfl
    rfl
  · intro hne hlt
    rcases L with _ | ⟨a, L⟩
    · exact absurd rfl hne
    rcases L with _ | ⟨b, L⟩
    · have ha : a < 256 := hv a (by simp)
      have key : ADC_GetAvgTempC (pushTemps [a]
          (ADC_InitModule ⟨ch, kick, [p1, p2, p3, p4, p5], cnt, idx, lastv, ascii⟩)) =
          (0 + a % 256) % 65536 / 1 % 256 := rfl
      rw [key]
      simp only [List.sum_cons, List.sum_nil, List.length_cons, List.length_nil]
      clear key hv hne hlt h5
      omega
    rcases L with _ | ⟨c, L⟩
    · have ha : a < 256 := hv a (by simp)
      have hb : b < 256 := hv b (by simp)
      have key : ADC_GetAvgTempC (pushTemps [a, b]
          (ADC_InitModule ⟨ch, kick, [p1, p2, p3, p4, p5], cnt, idx, lastv, ascii⟩)) =
          ((0 + a % 256) % 65536 + b % 256) % 65536 / 2 % 256 := rfl
      rw [key]
      simp only [List.sum_cons, List.sum_nil, List.length_cons, List.length_nil]
      clear key hv hne hlt h5
      omega
    rcases L with _ | ⟨d, L⟩
    · have ha : a < 256 := hv a (by simp)
      have hb : b < 256 := hv b (by simp)
      have hc : c < 256 := hv c (by simp)
      have key : ADC_GetAvgTempC (pushTemps [a, b, c]
          (ADC_InitModule ⟨ch, kick, [p1, p2, p3, p4, p5], cnt, idx, lastv, ascii⟩)) =
          (((0 + a % 256) % 65536 + b % 256) % 65536 + c % 256) % 65536 / 3 % 256 := rfl
      rw [key]
      simp only [List.sum_cons, List.sum_nil, List.length_cons, List.length_nil]
      clear key hv hne hlt h5
      omega
    rcases L with _ | ⟨e, L⟩
    · have ha : a < 256 := hv a (by simp)
      have hb : b < 256 := hv b (by simp)
      have hc : c < 256 := hv c (by simp)
      have hd : d < 256 := hv d (by simp)
      have key : ADC_GetAvgTempC (pushTemps [a, b, c, d]
          (ADC_InitModule ⟨ch, kick, [p1, p2, p3, p4, p5], cnt, idx, lastv, ascii⟩)) =
          ((((0 + a % 256) % 65536 + b % 256) % 65536 + c % 256) % 65536 + d % 256) %
            65536 / 4 % 256 := rfl
      rw [key]
      simp only [List.sum_cons, List.sum_nil, List.length_cons, List.length_nil]
      clear key hv hne hlt h5
      omega
    · simp only [List.length_cons] at hlt
      omega
  · intro hge
    obtain ⟨hlen, hcount, hidx, hcont⟩ :=
      bufInv_pushTemps ⟨ch, kick, [p1, p2, p3, p4, p5], cnt, idx, lastv, ascii⟩ (by simp) L
    set s' := pushTemps L
      (ADC_InitModule ⟨ch, kick, [p1, p2, p3, p4, p5], cnt, idx, lastv, ascii⟩) with hs'
    clear_value s'
    have hmin : min L.length 5 = 5 := min_eq_right hge
    rw [hmin] at hcount hcont
    have hDlen : (L.drop (L.length - 5)).length = 5 := by
      rw [List.length_drop]
      omega
    obtain ⟨a, b, c, d, e, hD⟩ := exists_five_of_length _ hDlen
    have ha : a < 256 := hv a (List.mem_of_mem_drop (by rw [hD]; simp))
    have hb : b < 256 := hv b (List.mem_of_mem_drop (by rw [hD]; simp))
    have hc : c < 256 := hv c (List.mem_of_mem_drop (by rw [hD]; simp))
    have hd : d < 256 := hv d (List.mem_of_mem_drop (by rw [hD]; simp))
    have he : e < 256 := hv e (List.mem_of_mem_drop (by rw [hD]; simp))
    have h1 : L.reverse = (L.drop (L.length - 5)).reverse ++ (L.take (L.length - 5)).reverse := by
      conv_lhs => rw [← List.take_append_drop (L.length - 5) L]
      rw [List.reverse_append]
    have hrev : ∀ k, k < 5 → L.reverse.getD k 0 = [e, d, c, b, a].getD k 0 := by
      intro k hk
      rw [h1, hD]
      rw [show ([a, b, c, d, e] : List Nat).reverse = [e, d, c, b, a] from rfl]
      exact getD_append_left _ _ k (by simp only [List.length_cons, List.length_nil]; omega)
    have e0 := hcont 0 (by norm_num)
    have e1 := hcont 1 (by norm_num)
    have e2 := hcont 2 (by norm_num)
    have e3 := hcont 3 (by norm_num)
    have e4 := hcont 4 (by norm_num)
    rw [hrev 0 (by norm_num), show ([e, d, c, b, a] : List Nat).getD 0 0 = e from rfl] at e0
    rw [hrev 1 (by norm_num), show ([e, d, c, b, a] : List Nat).getD 1 0 = d from rfl] at e1
    rw [hrev 2 (by norm_num), show ([e, d, c, b, a] : List Nat).getD 2 0 = c from rfl] at e2
    rw [hrev 3 (by norm_num), show ([e, d, c, b, a] : List Nat).getD 3 0 = b from rfl] at e3
    rw [hrev 4 (by norm_num), show ([e, d, c, b, a] : List Nat).getD 4 0 = a from rfl] at e4
    rw [show ADC_GetAvgTempC s' = if s'.s_tempCount = 0 then 0
        else accLoop s'.s_tempBuf s'.s_tempCount / s'.s_tempCount % 256 from rfl]
    rw [hcount, if_neg (by norm_num)]
    rw [show accLoop s'.s_tempBuf 5 =
        (((((0 + s'.s_tempBuf.getD 0 0) % 65536 + s'.s_tempBuf.getD 1 0) % 65536 +
          s'.s_tempBuf.getD 2 0) % 65536 + s'.s_tempBuf.getD 3 0) % 65536 +
          s'.s_tempBuf.getD 4 0) % 65536 from rfl]
    rw [hD]
    simp only [List.sum_cons, List.sum_nil]
    have hr : L.length % 5 = 0 ∨ L.length % 5 = 1 ∨ L.length % 5 = 2 ∨
        L.length % 5 = 3 ∨ L.length % 5 = 4 := by
      have hm5 : L.length % 5 < 5 := Nat.mod_lt _ (by norm_num)
      omega
    clear hcont hrev h1 hD hv hidx hlen hs' hmin hge hDlen h5 hcount
    rcases hr with h | h | h | h | h <;>
      (rw [h] at e0 e1 e2 e3 e4;
        simp only [Nat.reduceAdd, Nat.reduceSub, Nat.reduceMod] at e0 e1 e2 e3 e4;
        rw [e0, e1, e2, e3, e4]; omega)

/-- C3 witness: pushing 10, 20, 30 from the reset state averages to 20. -/
theorem C3_rolling_average_witness :
    adcResetState.s_tempBuf.length = 5 ∧ (∀ v ∈ ([10, 20, 30] : List Nat), v < 256) ∧
      ADC_GetAvgTempC (pushTemps [10, 20, 30] (ADC_InitModule adcResetState)) =
        ([10, 20, 30] : List Nat).sum / ([10, 20, 30] : List Nat).length :=
  ⟨by decide, by decide,
    (C3_rolling_average adcResetState [10, 20, 30] (by decide) (by decide)).2.1
      (by decide) (by decide)⟩
